import Mathlib

/-!
Verification of the LSTM-structure notebook (`2_4_LSTMs/1. LSTM Structure`).

The notebook builds an `nn.LSTM(input_size=4, hidden_size=3)`, draws five
random input rows of width 4, initializes a `(hidden, cell)` pair of
width-3 vectors, and processes the sequence twice: once stepping through
the inputs one element at a time while threading the returned state, and
once as a single batched call on the concatenated-and-reshaped 3D tensor.

The LSTM primitive itself is external framework code, absent from the
repository; it is modelled below from the spec (an opaque map from an
input vector and a prior `(hidden, cell)` pair to an output vector and a
new pair, realized by the framework's documented recurrence with the
activation functions abstracted as parameters, over exact rationals).
The notebook's own content — shaping, looping, state threading — is
embedded directly.
-/

namespace LSTMStructure

/-- A numeric vector: one row of a tensor, over exact rationals. -/
abbrev Vec := List ℚ

/-- Dot product of two vectors. -/
def dot (xs ys : Vec) : ℚ := (List.zipWith (· * ·) xs ys).sum

/-- Matrix–vector product: one output entry per matrix row. -/
def matVec (m : List Vec) (x : Vec) : Vec := m.map (fun row => dot row x)

/-- Elementwise vector addition. -/
def vadd (xs ys : Vec) : Vec := List.zipWith (· + ·) xs ys

/-- Elementwise (Hadamard) vector product. -/
def hprod (xs ys : Vec) : Vec := List.zipWith (· * ·) xs ys

/-- Modelled from the spec: the weight/bias tensors owned internally by
the library primitive (`nn.LSTM`), opaque to the notebook.  One weight
matrix per gate and per source (input / hidden) and one bias vector per
gate and per source, following the framework's parameter layout. -/
structure LSTMParams where
  w_ii : List Vec
  w_if : List Vec
  w_ig : List Vec
  w_io : List Vec
  w_hi : List Vec
  w_hf : List Vec
  w_hg : List Vec
  w_ho : List Vec
  b_ii : Vec
  b_if : Vec
  b_ig : Vec
  b_io : Vec
  b_hi : Vec
  b_hf : Vec
  b_hg : Vec
  b_ho : Vec

/-- A weight matrix with the given number of rows and columns. -/
def wfMat (m : List Vec) (rows cols : Nat) : Prop :=
  m.length = rows ∧ ∀ r ∈ m, r.length = cols

instance (m : List Vec) (rows cols : Nat) : Decidable (wfMat m rows cols) := by
  unfold wfMat; infer_instance

/-- Well-formed parameters for input width `inDim` and hidden width `hd`:
input-to-hidden matrices are `hd × inDim`, hidden-to-hidden matrices are
`hd × hd`, and every bias vector has width `hd`. -/
def wfParams (p : LSTMParams) (inDim hd : Nat) : Prop :=
  wfMat p.w_ii hd inDim ∧ wfMat p.w_if hd inDim ∧
  wfMat p.w_ig hd inDim ∧ wfMat p.w_io hd inDim ∧
  wfMat p.w_hi hd hd ∧ wfMat p.w_hf hd hd ∧
  wfMat p.w_hg hd hd ∧ wfMat p.w_ho hd hd ∧
  p.b_ii.length = hd ∧ p.b_if.length = hd ∧
  p.b_ig.length = hd ∧ p.b_io.length = hd ∧
  p.b_hi.length = hd ∧ p.b_hf.length = hd ∧
  p.b_hg.length = hd ∧ p.b_ho.length = hd

instance (p : LSTMParams) (inDim hd : Nat) : Decidable (wfParams p inDim hd) := by
  unfold wfParams; infer_instance

/-- Modelled from the spec: one time step of the external LSTM primitive,
the framework's documented recurrence.  `sg` is the gate activation
(sigmoid) and `th` the cell activation (tanh), abstracted as parameters
since the exact transcendental functions are internal to the library.
Given an input vector `x` and the prior pair `(h, c)`, it returns the new
pair `(h', c')`; the step's output vector equals `h'`. -/
def lstmCell (sg th : ℚ → ℚ) (p : LSTMParams) (x h c : Vec) : Vec × Vec :=
  let gi := (vadd (vadd (matVec p.w_ii x) p.b_ii) (vadd (matVec p.w_hi h) p.b_hi)).map sg
  let gf := (vadd (vadd (matVec p.w_if x) p.b_if) (vadd (matVec p.w_hf h) p.b_hf)).map sg
  let gg := (vadd (vadd (matVec p.w_ig x) p.b_ig) (vadd (matVec p.w_hg h) p.b_hg)).map th
  let go := (vadd (vadd (matVec p.w_io x) p.b_io) (vadd (matVec p.w_ho h) p.b_ho)).map sg
  let c' := vadd (hprod gf c) (hprod gi gg)
  let h' := hprod go (c'.map th)
  (h', c')

/-- Modelled from the spec: the batched LSTM invocation (batch size 1,
as in the notebook).  One call on an ordered sequence of input vectors
and an initial `(hidden, cell)` pair returns the full ordered sequence of
per-step output vectors together with only the final pair. -/
def lstmForward (sg th : ℚ → ℚ) (p : LSTMParams) :
    List Vec → Vec × Vec → List Vec × (Vec × Vec)
  | [], s => ([], s)
  | x :: xs, s =>
    let hc := lstmCell sg th p x s.1 s.2
    let rest := lstmForward sg th p xs hc
    (hc.1 :: rest.1, rest.2)

/-- The notebook's step-wise loop
(`for i in inputs_list: out, hidden = lstm(i.view(1, 1, -1), hidden)`):
each iteration calls the primitive on the single-step sequence holding
just that input and threads the returned state pair into the next call;
the per-iteration outputs are collected in order. -/
def stepwiseRun (sg th : ℚ → ℚ) (p : LSTMParams) :
    List Vec → Vec × Vec → List Vec × (Vec × Vec)
  | [], s => ([], s)
  | x :: xs, s =>
    let step := lstmForward sg th p [x] s
    let rest := stepwiseRun sg th p xs step.2
    (step.1 ++ rest.1, rest.2)

@[simp] lemma lstmForward_nil (sg th : ℚ → ℚ) (p : LSTMParams) (s : Vec × Vec) :
    lstmForward sg th p [] s = ([], s) := rfl

@[simp] lemma lstmForward_cons (sg th : ℚ → ℚ) (p : LSTMParams) (x : Vec)
    (xs : List Vec) (s : Vec × Vec) :
    lstmForward sg th p (x :: xs) s =
      ((lstmCell sg th p x s.1 s.2).1 ::
        (lstmForward sg th p xs (lstmCell sg th p x s.1 s.2)).1,
       (lstmForward sg th p xs (lstmCell sg th p x s.1 s.2)).2) := rfl

@[simp] lemma stepwiseRun_nil (sg th : ℚ → ℚ) (p : LSTMParams) (s : Vec × Vec) :
    stepwiseRun sg th p [] s = ([], s) := rfl

lemma stepwiseRun_cons (sg th : ℚ → ℚ) (p : LSTMParams) (x : Vec)
    (xs : List Vec) (s : Vec × Vec) :
    stepwiseRun sg th p (x :: xs) s =
      ((lstmForward sg th p [x] s).1 ++
        (stepwiseRun sg th p xs (lstmForward sg th p [x] s).2).1,
       (stepwiseRun sg th p xs (lstmForward sg th p [x] s).2).2) := rfl

/-- The single-step batched call used inside the loop, computed. -/
lemma lstmForward_single (sg th : ℚ → ℚ) (p : LSTMParams) (x : Vec) (s : Vec × Vec) :
    lstmForward sg th p [x] s =
      ([(lstmCell sg th p x s.1 s.2).1], lstmCell sg th p x s.1 s.2) := rfl

/-- Core equivalence: the step-wise loop agrees with the one-shot batched
invocation on outputs and final state. -/
lemma stepwiseRun_eq_forward (sg th : ℚ → ℚ) (p : LSTMParams) (xs : List Vec)
    (s : Vec × Vec) : stepwiseRun sg th p xs s = lstmForward sg th p xs s := by
  induction xs generalizing s with
  | nil => rfl
  | cons x xs ih =>
      rw [stepwiseRun_cons, lstmForward_single, lstmForward_cons]
      simp [ih]

@[simp] lemma matVec_length (m : List Vec) (x : Vec) :
    (matVec m x).length = m.length := by
  simp [matVec]

@[simp] lemma vadd_length (xs ys : Vec) :
    (vadd xs ys).length = min xs.length ys.length := by
  simp [vadd]

@[simp] lemma hprod_length (xs ys : Vec) :
    (hprod xs ys).length = min xs.length ys.length := by
  simp [hprod]

/-- Width preservation of a single step: with well-formed parameters and a
cell state of width `hd`, both components of the returned pair have width
`hd`. -/
lemma lstmCell_length (sg th : ℚ → ℚ) (p : LSTMParams) (inDim hd : Nat)
    (hp : wfParams p inDim hd) (x h c : Vec) (hc : c.length = hd) :
    (lstmCell sg th p x h c).1.length = hd ∧
    (lstmCell sg th p x h c).2.length = hd := by
  obtain ⟨⟨hii, -⟩, ⟨hif, -⟩, ⟨hig, -⟩, ⟨hio, -⟩,
    ⟨hhi, -⟩, ⟨hhf, -⟩, ⟨hhg, -⟩, ⟨hho, -⟩,
    bii, bif_, big, bio, bhi, bhf, bhg, bho⟩ := hp
  simp [lstmCell, hii, hif, hig, hio, hhi, hhf, hhg, hho,
    bii, bif_, big, bio, bhi, bhf, bhg, bho, hc]

/-- Width preservation over a whole sequence: every output vector and both
final state components have width `hd`. -/
lemma lstmForward_length (sg th : ℚ → ℚ) (p : LSTMParams) (inDim hd : Nat)
    (hp : wfParams p inDim hd) (xs : List Vec) (s : Vec × Vec)
    (hh : s.1.length = hd) (hc : s.2.length = hd) :
    (∀ o ∈ (lstmForward sg th p xs s).1, o.length = hd) ∧
    (lstmForward sg th p xs s).2.1.length = hd ∧
    (lstmForward sg th p xs s).2.2.length = hd := by
  induction xs generalizing s with
  | nil => simpa using ⟨hh, hc⟩
  | cons x xs ih =>
      have hcell := lstmCell_length sg th p inDim hd hp x s.1 s.2 hc
      have := ih (lstmCell sg th p x s.1 s.2) hcell.1 hcell.2
      refine ⟨?_, this.2.1, this.2.2⟩
      intro o ho
      rcases (by simpa using ho : o = (lstmCell sg th p x s.1 s.2).1 ∨
          o ∈ (lstmForward sg th p xs (lstmCell sg th p x s.1 s.2)).1) with h1 | h2
      · rw [h1]; exact hcell.1
      · exact this.1 o h2

/-- The final state of a batched run is the left fold of the cell over the
inputs: the state after the last time step, with no intermediate pairs. -/
lemma lstmForward_snd_foldl (sg th : ℚ → ℚ) (p : LSTMParams) (xs : List Vec)
    (s : Vec × Vec) :
    (lstmForward sg th p xs s).2 =
      xs.foldl (fun st x => lstmCell sg th p x st.1 st.2) s := by
  induction xs generalizing s with
  | nil => rfl
  | cons x xs ih => simp [ih]

/-- A batched run returns one output per time step. -/
lemma lstmForward_length_outputs (sg th : ℚ → ℚ) (p : LSTMParams)
    (xs : List Vec) (s : Vec × Vec) :
    (lstmForward sg th p xs s).1.length = xs.length := by
  induction xs generalizing s with
  | nil => rfl
  | cons x xs ih => simp [ih]

/-- Per-step characterization of a batched run: the output at position
`t` is the cell applied to the input at position `t` and the state carried
from the first `t` steps. -/
lemma lstmForward_get? (sg th : ℚ → ℚ) (p : LSTMParams) (xs : List Vec)
    (s : Vec × Vec) (t : Nat) :
    (lstmForward sg th p xs s).1.get? t =
      (xs.get? t).map (fun x =>
        (lstmCell sg th p x (lstmForward sg th p (xs.take t) s).2.1
          (lstmForward sg th p (xs.take t) s).2.2).1) := by
  induction xs generalizing s t with
  | nil => simp
  | cons x xs ih =>
      cases t with
      | zero => simp
      | succ t => simpa using ih (lstmCell sg th p x s.1 s.2) t

/-- Appending sequences composes batched runs: the second run starts from
the first run's final state. -/
lemma lstmForward_append (sg th : ℚ → ℚ) (p : LSTMParams) (as bs : List Vec)
    (s : Vec × Vec) :
    lstmForward sg th p (as ++ bs) s =
      ((lstmForward sg th p as s).1 ++
        (lstmForward sg th p bs (lstmForward sg th p as s).2).1,
       (lstmForward sg th p bs (lstmForward sg th p as s).2).2) := by
  induction as generalizing s with
  | nil => simp
  | cons a as ih => simp [ih]

/-- Modelled from the spec: one time step of the primitive at batch size
`N`.  A step's input is a batch of `N` rows; the `N` batch elements are
processed independently, each with its own `(hidden, cell)` row.  Returns
the batch of output rows and the new per-row state batches. -/
def lstmCellB (sg th : ℚ → ℚ) (p : LSTMParams) (xb hb cb : List Vec) :
    List Vec × (List Vec × List Vec) :=
  let res := List.zipWith (fun x hc => lstmCell sg th p x hc.1 hc.2)
    xb (List.zipWith Prod.mk hb cb)
  (res.map Prod.fst, (res.map Prod.fst, res.map Prod.snd))

/-- Modelled from the spec: the batched invocation at batch size `N` over
a sequence of batch steps, threading the per-row state batches. -/
def lstmForwardB (sg th : ℚ → ℚ) (p : LSTMParams) :
    List (List Vec) → List Vec × List Vec → List (List Vec) × (List Vec × List Vec)
  | [], s => ([], s)
  | xb :: xbs, s =>
    let step := lstmCellB sg th p xb s.1 s.2
    let rest := lstmForwardB sg th p xbs step.2
    (step.1 :: rest.1, rest.2)

lemma zipWith_replicate_same {α β γ : Type} (f : α → β → γ) (n : Nat)
    (a : α) (b : β) :
    List.zipWith f (List.replicate n a) (List.replicate n b) =
      List.replicate n (f a b) := by
  induction n with
  | zero => rfl
  | succ n ih => simp [List.replicate_succ, ih]

/-- A batch step on `N` replicated rows and `N` replicated state rows is
the single-row step, replicated. -/
lemma lstmCellB_replicate (sg th : ℚ → ℚ) (p : LSTMParams) (n : Nat)
    (x h c : Vec) :
    lstmCellB sg th p (List.replicate n x) (List.replicate n h)
        (List.replicate n c) =
      (List.replicate n (lstmCell sg th p x h c).1,
       (List.replicate n (lstmCell sg th p x h c).1,
        List.replicate n (lstmCell sg th p x h c).2)) := by
  simp [lstmCellB, zipWith_replicate_same]

/-- A batched run on inputs and state replicated across a batch of size
`n` produces, at every time step, the batch-size-1 output replicated `n`
times, and the replicated final state. -/
lemma lstmForwardB_replicate (sg th : ℚ → ℚ) (p : LSTMParams) (n : Nat)
    (xs : List Vec) (h c : Vec) :
    lstmForwardB sg th p (xs.map (List.replicate n))
        (List.replicate n h, List.replicate n c) =
      ((lstmForward sg th p xs (h, c)).1.map (List.replicate n),
       (List.replicate n (lstmForward sg th p xs (h, c)).2.1,
        List.replicate n (lstmForward sg th p xs (h, c)).2.2)) := by
  induction xs generalizing h c with
  | nil => rfl
  | cons x xs ih =>
      simp only [List.map_cons, lstmForwardB, lstmCellB_replicate, lstmForward_cons]
      simp [ih]

/-- Split a flat list into consecutive chunks of `k` elements (the last
chunk may be shorter); `k = 0` yields no chunks. -/
def chunks : Nat → List ℚ → List (List ℚ)
  | _, [] => []
  | 0, _ :: _ => []
  | k + 1, x :: xs =>
    (x :: xs).take (k + 1) :: chunks (k + 1) ((x :: xs).drop (k + 1))
termination_by _ l => l.length
decreasing_by
  simp only [List.drop_succ_cons, List.length_drop, List.length_cons]
  omega

@[simp] lemma chunks_nil (k : Nat) : chunks k [] = [] := by cases k <;> rw [chunks]

lemma chunks_cons (k : Nat) (x : ℚ) (xs : List ℚ) :
    chunks (k + 1) (x :: xs) =
      (x :: xs).take (k + 1) :: chunks (k + 1) ((x :: xs).drop (k + 1)) := by
  rw [chunks]

/-- Re-chunking the flattening of equal-width rows recovers the rows. -/
lemma chunks_join (k : Nat) (rows : List (List ℚ))
    (hw : ∀ r ∈ rows, r.length = k + 1) :
    chunks (k + 1) rows.flatten = rows := by
  induction rows with
  | nil => simp
  | cons r rs ih =>
      have hr : r.length = k + 1 := hw r (by simp)
      have hnil : ∃ y ys, r ++ rs.flatten = y :: ys := by
        cases r with
        | nil => simp at hr
        | cons y ys => exact ⟨y, ys ++ rs.flatten, by simp⟩
      obtain ⟨y, ys, hys⟩ := hnil
      rw [List.flatten_cons, hys, chunks_cons, ← hys]
      rw [List.take_append_of_le_length (by omega), List.take_of_length_le (by omega)]
      rw [List.drop_append_of_le_length (by omega), List.drop_of_length_le (by omega),
        List.nil_append]
      rw [ih (fun x hx => hw x (by simp [hx]))]

/-- Modelled from the library's `Tensor.view(d0, d1, -1)` on a contiguous
tensor: flatten to the given flat element list, infer the last dimension
as `numel / (d0 * d1)`, and regroup into `d0` groups of `d1` rows. -/
def view3 (flat : List ℚ) (d0 d1 : Nat) : List (List (List ℚ)) :=
  let k := flat.length / (d0 * d1)
  (chunks (d1 * k) flat).map (chunks k)

/-- `torch.cat` along dimension 0 of a list of `(1, w)` row tensors,
modelled with each such tensor as its single row: the ordered list of
rows; flattening it for `view` is `List.flatten`. -/
def catRows (inputs : List Vec) : List Vec := inputs

/-- Modelled from the spec: the library's shape validation.  An LSTM call
succeeds only when every input vector has the configured input width and
both state vectors have the configured hidden width; otherwise the
library raises a shape-mismatch error. -/
def lstmForwardChecked (sg th : ℚ → ℚ) (p : LSTMParams) (inDim hd : Nat)
    (xs : List Vec) (s : Vec × Vec) :
    Except String (List Vec × (Vec × Vec)) :=
  if xs.all (fun x => x.length == inDim) &&
      (s.1.length == hd) && (s.2.length == hd) then
    .ok (lstmForward sg th p xs s)
  else
    .error "shape mismatch"

/-- The notebook's step-wise loop with every LSTM call going through the
library's shape validation. -/
def stepwiseRunChecked (sg th : ℚ → ℚ) (p : LSTMParams) (inDim hd : Nat) :
    List Vec → Vec × Vec → Except String (List Vec × (Vec × Vec))
  | [], s => .ok ([], s)
  | x :: xs, s =>
    match lstmForwardChecked sg th p inDim hd [x] s with
    | .error e => .error e
    | .ok step =>
      match stepwiseRunChecked sg th p inDim hd xs step.2 with
      | .error e => .error e
      | .ok rest => .ok (step.1 ++ rest.1, rest.2)

/-- Under well-formed parameters and well-shaped inputs and state, the
checked step-wise loop never reaches the error branch and agrees with the
unchecked loop. -/
lemma stepwiseRunChecked_ok (sg th : ℚ → ℚ) (p : LSTMParams) (inDim hd : Nat)
    (hp : wfParams p inDim hd) (xs : List Vec) (s : Vec × Vec)
    (hx : ∀ x ∈ xs, x.length = inDim)
    (hh : s.1.length = hd) (hc : s.2.length = hd) :
    stepwiseRunChecked sg th p inDim hd xs s = .ok (stepwiseRun sg th p xs s) := by
  induction xs generalizing s with
  | nil => rfl
  | cons x xs ih =>
      have hx0 : x.length = inDim := hx x (by simp)
      have hchk : lstmForwardChecked sg th p inDim hd [x] s =
          .ok (lstmForward sg th p [x] s) := by
        simp [lstmForwardChecked, hx0, hh, hc]
      have hcell := lstmCell_length sg th p inDim hd hp x s.1 s.2 hc
      have hrest := ih (lstmCell sg th p x s.1 s.2)
        (fun y hy => hx y (by simp [hy])) hcell.1 hcell.2
      rw [stepwiseRunChecked, hchk]
      simp [hrest, stepwiseRun_cons]

/-- The statements of the notebook's two code-bearing cells that create
or rebind the hidden/cell state or call the LSTM, in program order. -/
inductive NotebookStmt
  | seed (n : Nat)
  | defineLstm
  | makeInputsList
  | initHidden
  | stepCall
  | catView
  | batchedCall
deriving DecidableEq

/-- The notebook's program, in order: seed, define the LSTM, draw the five
inputs, initialize `hidden`, run the five loop iterations (each rebinding
`hidden`), concatenate-and-view the inputs, initialize `hidden` again, and
make the one batched call. -/
def notebookProgram : List NotebookStmt :=
  [.seed 2, .defineLstm, .makeInputsList, .initHidden,
   .stepCall, .stepCall, .stepCall, .stepCall, .stepCall,
   .catView, .initHidden, .batchedCall]

/-- Whether a statement initializes the hidden/cell pair from fresh random
draws (`hidden = (torch.randn(1, 1, hidden_dim), torch.randn(1, 1, hidden_dim))`). -/
def isInitHidden : NotebookStmt → Bool
  | .initHidden => true
  | _ => false

/-- How many times a program initializes the hidden/cell pair. -/
def hiddenInitCount (prog : List NotebookStmt) : Nat :=
  (prog.filter isInitHidden).length

/-- A run of the notebook, as a function of the framework's seeded random
stream: everything the notebook binds, in order. -/
structure NotebookRun where
  inputsList : List Vec
  hidden0 : Vec × Vec
  stepResult : List Vec × (Vec × Vec)
  hidden1 : Vec × Vec
  batchedInputs : List Vec
  batchedResult : List Vec × (Vec × Vec)
deriving DecidableEq

/-- Modelled from the spec: `torch.manual_seed` makes the random stream a
deterministic function of the seed; `gen seed` is that stream, one
rational per successive draw.  The notebook's draws, in order: twenty
values for the five width-4 input rows, six for the first `(h0, c0)`
pair, six more for the second pair. -/
def runNotebook (gen : Nat → Nat → ℚ) (sg th : ℚ → ℚ) (p : LSTMParams) :
    NotebookRun :=
  let r := gen 2
  let inputsList := (List.range 5).map (fun t =>
    (List.range 4).map (fun j => r (4 * t + j)))
  let hidden0 := ((List.range 3).map (fun j => r (20 + j)),
                  (List.range 3).map (fun j => r (23 + j)))
  let stepResult := stepwiseRun sg th p inputsList hidden0
  let hidden1 := ((List.range 3).map (fun j => r (26 + j)),
                  (List.range 3).map (fun j => r (29 + j)))
  let batchedInputs := (view3 (catRows inputsList).flatten 5 1).map List.flatten
  let batchedResult := lstmForward sg th p batchedInputs hidden1
  { inputsList := inputsList, hidden0 := hidden0, stepResult := stepResult,
    hidden1 := hidden1, batchedInputs := batchedInputs,
    batchedResult := batchedResult }

/-- The `view(n, 1, -1)` reshape of the flattening of `n` rows of equal
positive width recovers each row as a singleton batch group. -/
lemma view3_rows (rows : List (List ℚ)) (n k : Nat)
    (hn : rows.length = n) (hn0 : 0 < n)
    (hw : ∀ r ∈ rows, r.length = k + 1) :
    view3 rows.flatten n 1 = rows.map (fun r => [r]) := by
  have hmap : rows.map List.length = List.replicate n (k + 1) :=
    List.eq_replicate_iff.2 ⟨by simp [hn], by simpa using hw⟩
  have hflat : rows.flatten.length = n * (k + 1) := by
    rw [List.length_flatten, hmap, List.sum_replicate, smul_eq_mul]
  have hk : rows.flatten.length / (n * 1) = k + 1 := by
    rw [hflat, mul_one, Nat.mul_div_cancel_left _ hn0]
  have hone : ∀ r ∈ rows, chunks (k + 1) r = [r] := by
    intro r hr
    have : chunks (k + 1) ([r] : List (List ℚ)).flatten = [r] :=
      chunks_join k [r] (by simpa using hw r hr)
    simpa using this
  unfold view3
  simp only [hk, one_mul]
  rw [chunks_join k rows hw]
  exact List.map_congr_left hone

/-- The notebook's batched input tensor, built by `cat` + `view`, holds
exactly the original input rows in order. -/
lemma runNotebook_batchedInputs (gen : Nat → Nat → ℚ) (sg th : ℚ → ℚ)
    (p : LSTMParams) :
    (runNotebook gen sg th p).batchedInputs =
      (runNotebook gen sg th p).inputsList := by
  unfold runNotebook catRows
  simp only []
  rw [view3_rows _ 5 3 (by simp) (by norm_num) (by simp)]
  simp [Function.comp]

/-- Concrete well-formed parameters at the notebook's configured sizes
(`input_dim = 4`, `hidden_dim = 3`), used to instantiate theorems on
concrete inputs. -/
def testParams : LSTMParams where
  w_ii := List.replicate 3 (List.replicate 4 1)
  w_if := List.replicate 3 (List.replicate 4 1)
  w_ig := List.replicate 3 (List.replicate 4 1)
  w_io := List.replicate 3 (List.replicate 4 1)
  w_hi := List.replicate 3 (List.replicate 3 1)
  w_hf := List.replicate 3 (List.replicate 3 1)
  w_hg := List.replicate 3 (List.replicate 3 1)
  w_ho := List.replicate 3 (List.replicate 3 1)
  b_ii := List.replicate 3 1
  b_if := List.replicate 3 1
  b_ig := List.replicate 3 1
  b_io := List.replicate 3 1
  b_hi := List.replicate 3 1
  b_hf := List.replicate 3 1
  b_hg := List.replicate 3 1
  b_ho := List.replicate 3 1

/-- C1: for every input sequence and every initial (hidden, cell) state
pair, invoking the LSTM primitive step-wise — one time step at a time,
threading the updated state pair into the next call as in the notebook's
loop — and invoking it once in batched form over the same ordered
sequence with the same initial state produce the same per-step output
sequence and the same final hidden/cell state.  (Over exact rationals,
so exact equality; floating-point tolerance is not needed.) -/
theorem stepwise_batched_equivalent (sg th : ℚ → ℚ) (p : LSTMParams)
    (xs : List Vec) (s : Vec × Vec) :
    (stepwiseRun sg th p xs s).1 = (lstmForward sg th p xs s).1 ∧
    (stepwiseRun sg th p xs s).2 = (lstmForward sg th p xs s).2 := by
  rw [stepwiseRun_eq_forward]
  exact ⟨rfl, rfl⟩

/-- C2: for every invocation with well-formed parameters at the
configured sizes (input width 4, hidden width 3), accepted input vectors
of width 4 and state vectors of width 3: every output vector returned by
the step-wise loop and by the batched call has width 3, and the returned
hidden and cell state vectors have width 3. -/
theorem lstm_widths (sg th : ℚ → ℚ) (p : LSTMParams)
    (hp : wfParams p 4 3) (xs : List Vec) (_hx : ∀ x ∈ xs, x.length = 4)
    (s : Vec × Vec) (hh : s.1.length = 3) (hc : s.2.length = 3) :
    (∀ o ∈ (stepwiseRun sg th p xs s).1, o.length = 3) ∧
    (stepwiseRun sg th p xs s).2.1.length = 3 ∧
    (stepwiseRun sg th p xs s).2.2.length = 3 ∧
    (∀ o ∈ (lstmForward sg th p xs s).1, o.length = 3) ∧
    (lstmForward sg th p xs s).2.1.length = 3 ∧
    (lstmForward sg th p xs s).2.2.length = 3 := by
  have hf := lstmForward_length sg th p 4 3 hp xs s hh hc
  rw [stepwiseRun_eq_forward]
  exact ⟨hf.1, hf.2.1, hf.2.2, hf.1, hf.2.1, hf.2.2⟩

/-- C2 witness: the width theorem instantiated on a concrete parameter
set, one concrete width-4 input and a concrete width-3 state pair. -/
theorem lstm_widths_witness :
    (wfParams testParams 4 3 ∧
      (∀ x ∈ ([[1, 2, 3, 4]] : List Vec), x.length = 4) ∧
      ([0, 0, 0] : Vec).length = 3) ∧
    (∀ o ∈ (stepwiseRun id id testParams [[1, 2, 3, 4]] ([0, 0, 0], [0, 0, 0])).1,
      o.length = 3) ∧
    (stepwiseRun id id testParams [[1, 2, 3, 4]] ([0, 0, 0], [0, 0, 0])).2.1.length = 3 ∧
    (stepwiseRun id id testParams [[1, 2, 3, 4]] ([0, 0, 0], [0, 0, 0])).2.2.length = 3 ∧
    (∀ o ∈ (lstmForward id id testParams [[1, 2, 3, 4]] ([0, 0, 0], [0, 0, 0])).1,
      o.length = 3) ∧
    (lstmForward id id testParams [[1, 2, 3, 4]] ([0, 0, 0], [0, 0, 0])).2.1.length = 3 ∧
    (lstmForward id id testParams [[1, 2, 3, 4]] ([0, 0, 0], [0, 0, 0])).2.2.length = 3 :=
  ⟨⟨by decide, by decide, by decide⟩,
    lstm_widths id id testParams (by decide) [[1, 2, 3, 4]] (by decide)
      ([0, 0, 0], [0, 0, 0]) (by decide) (by decide)⟩

/-- C3: in step-wise invocation, the output produced at step `t` is the
cell applied to the input vector at step `t` and the (hidden, cell) pair
carried from the first `t - 1` steps; consequently it does not depend on
inputs at later steps: any two sequences agreeing up to step `t` produce
the same output there. -/
theorem stepwise_output_causal (sg th : ℚ → ℚ) (p : LSTMParams)
    (xs : List Vec) (s : Vec × Vec) (t : Nat) (_ht : t < xs.length) :
    (stepwiseRun sg th p xs s).1.get? t =
      (xs.get? t).map (fun x =>
        (lstmCell sg th p x (stepwiseRun sg th p (xs.take t) s).2.1
          (stepwiseRun sg th p (xs.take t) s).2.2).1) ∧
    (∀ ys : List Vec, xs.take (t + 1) = ys.take (t + 1) →
      (stepwiseRun sg th p xs s).1.get? t =
        (stepwiseRun sg th p ys s).1.get? t) := by
  have key : ∀ zs : List Vec,
      (stepwiseRun sg th p zs s).1.get? t =
        (zs.get? t).map (fun x =>
          (lstmCell sg th p x (stepwiseRun sg th p (zs.take t) s).2.1
            (stepwiseRun sg th p (zs.take t) s).2.2).1) := by
    intro zs
    rw [stepwiseRun_eq_forward, stepwiseRun_eq_forward]
    exact lstmForward_get? sg th p zs s t
  refine ⟨key xs, fun ys hagree => ?_⟩
  rw [key xs, key ys]
  have hget : xs.get? t = ys.get? t := by
    have h1 : (xs.take (t + 1)).get? t = xs.get? t :=
      List.get?_take (Nat.lt_succ_self t)
    have h2 : (ys.take (t + 1)).get? t = ys.get? t :=
      List.get?_take (Nat.lt_succ_self t)
    rw [← h1, ← h2, hagree]
  have htake : xs.take t = ys.take t := by
    have h1 : (xs.take (t + 1)).take t = xs.take t := by
      rw [List.take_take, min_eq_left (Nat.le_succ t)]
    have h2 : (ys.take (t + 1)).take t = ys.take t := by
      rw [List.take_take, min_eq_left (Nat.le_succ t)]
    rw [← h1, ← h2, hagree]
  rw [hget, htake]

/-- C3 witness: the causality theorem instantiated at step 0 of a
concrete two-step sequence. -/
theorem stepwise_output_causal_witness :
    (0 < ([[1, 0, 0, 0], [2, 0, 0, 0]] : List Vec).length) ∧
    ((stepwiseRun id id testParams [[1, 0, 0, 0], [2, 0, 0, 0]]
        ([0, 0, 0], [0, 0, 0])).1.get? 0 =
      (([[1, 0, 0, 0], [2, 0, 0, 0]] : List Vec).get? 0).map (fun x =>
        (lstmCell id id testParams x
          (stepwiseRun id id testParams
            (([[1, 0, 0, 0], [2, 0, 0, 0]] : List Vec).take 0)
            ([0, 0, 0], [0, 0, 0])).2.1
          (stepwiseRun id id testParams
            (([[1, 0, 0, 0], [2, 0, 0, 0]] : List Vec).take 0)
            ([0, 0, 0], [0, 0, 0])).2.2).1) ∧
      (∀ ys : List Vec,
        ([[1, 0, 0, 0], [2, 0, 0, 0]] : List Vec).take (0 + 1) = ys.take (0 + 1) →
        (stepwiseRun id id testParams [[1, 0, 0, 0], [2, 0, 0, 0]]
            ([0, 0, 0], [0, 0, 0])).1.get? 0 =
          (stepwiseRun id id testParams ys ([0, 0, 0], [0, 0, 0])).1.get? 0)) :=
  ⟨by decide,
    stepwise_output_causal id id testParams [[1, 0, 0, 0], [2, 0, 0, 0]]
      ([0, 0, 0], [0, 0, 0]) 0 (by decide)⟩

/-- C4: for every input sequence of `T` time steps and every initial
(hidden, cell) pair, the batched invocation returns the full ordered
sequence of `T` output vectors — one per time step, in input order, the
output at position `t` being the step-`t` output — together with only the
final (hidden, cell) pair, the left fold of the cell over the whole
sequence, with no intermediate state pairs. -/
theorem batched_outputs_and_final_state (sg th : ℚ → ℚ) (p : LSTMParams)
    (xs : List Vec) (s : Vec × Vec) (t : Nat) (_ht : t < xs.length) :
    (lstmForward sg th p xs s).1.length = xs.length ∧
    (lstmForward sg th p xs s).2 =
      xs.foldl (fun st x => lstmCell sg th p x st.1 st.2) s ∧
    (lstmForward sg th p xs s).1.get? t =
      (xs.get? t).map (fun x =>
        (lstmCell sg th p x (lstmForward sg th p (xs.take t) s).2.1
          (lstmForward sg th p (xs.take t) s).2.2).1) :=
  ⟨lstmForward_length_outputs sg th p xs s,
   lstmForward_snd_foldl sg th p xs s,
   lstmForward_get? sg th p xs s t⟩

/-- C4 witness: the batched-contract theorem instantiated at step 0 of a
concrete two-step sequence. -/
theorem batched_outputs_and_final_state_witness :
    (0 < ([[1, 0, 0, 0], [2, 0, 0, 0]] : List Vec).length) ∧
    ((lstmForward id id testParams [[1, 0, 0, 0], [2, 0, 0, 0]]
        ([0, 0, 0], [0, 0, 0])).1.length =
      ([[1, 0, 0, 0], [2, 0, 0, 0]] : List Vec).length ∧
    (lstmForward id id testParams [[1, 0, 0, 0], [2, 0, 0, 0]]
        ([0, 0, 0], [0, 0, 0])).2 =
      ([[1, 0, 0, 0], [2, 0, 0, 0]] : List Vec).foldl
        (fun st x => lstmCell id id testParams x st.1 st.2)
        ([0, 0, 0], [0, 0, 0]) ∧
    (lstmForward id id testParams [[1, 0, 0, 0], [2, 0, 0, 0]]
        ([0, 0, 0], [0, 0, 0])).1.get? 0 =
      (([[1, 0, 0, 0], [2, 0, 0, 0]] : List Vec).get? 0).map (fun x =>
        (lstmCell id id testParams x
          (lstmForward id id testParams
            (([[1, 0, 0, 0], [2, 0, 0, 0]] : List Vec).take 0)
            ([0, 0, 0], [0, 0, 0])).2.1
          (lstmForward id id testParams
            (([[1, 0, 0, 0], [2, 0, 0, 0]] : List Vec).take 0)
            ([0, 0, 0], [0, 0, 0])).2.2).1)) :=
  ⟨by decide,
    batched_outputs_and_final_state id id testParams
      [[1, 0, 0, 0], [2, 0, 0, 0]] ([0, 0, 0], [0, 0, 0]) 0 (by decide)⟩

/-- C5: feeding zero time steps is the identity on state: the step-wise
loop over an empty input sequence, and the batched invocation over a
zero-length sequence, both return no outputs and the state pair
unchanged. -/
theorem zero_steps_identity (sg th : ℚ → ℚ) (p : LSTMParams) (s : Vec × Vec) :
    stepwiseRun sg th p [] s = ([], s) ∧ lstmForward sg th p [] s = ([], s) :=
  ⟨rfl, rfl⟩

/-- C6: for every batch size `N ≥ 1`, replicating a batch-size-1 input
sequence and its initial state identically across a batch dimension of
size `N` and invoking the LSTM produces, at every time step, `N`
identical output rows, each equal to the batch-size-1 output for that
step; the final state rows are likewise the batch-size-1 final state
replicated. -/
theorem batch_replication (sg th : ℚ → ℚ) (p : LSTMParams) (n : Nat)
    (_hn : 1 ≤ n) (xs : List Vec) (h c : Vec) :
    (lstmForwardB sg th p (xs.map (List.replicate n))
        (List.replicate n h, List.replicate n c)).1 =
      (lstmForward sg th p xs (h, c)).1.map (List.replicate n) ∧
    (lstmForwardB sg th p (xs.map (List.replicate n))
        (List.replicate n h, List.replicate n c)).2 =
      (List.replicate n (lstmForward sg th p xs (h, c)).2.1,
       List.replicate n (lstmForward sg th p xs (h, c)).2.2) := by
  rw [lstmForwardB_replicate]
  exact ⟨rfl, rfl⟩

/-- C6 witness: batch replication instantiated at batch size 2 on a
concrete one-step sequence. -/
theorem batch_replication_witness :
    (1 ≤ 2) ∧
    ((lstmForwardB id id testParams
        (([[1, 2, 3, 4]] : List Vec).map (List.replicate 2))
        (List.replicate 2 ([0, 0, 0] : Vec), List.replicate 2 ([0, 0, 0] : Vec))).1 =
      (lstmForward id id testParams [[1, 2, 3, 4]] ([0, 0, 0], [0, 0, 0])).1.map
        (List.replicate 2) ∧
    (lstmForwardB id id testParams
        (([[1, 2, 3, 4]] : List Vec).map (List.replicate 2))
        (List.replicate 2 ([0, 0, 0] : Vec), List.replicate 2 ([0, 0, 0] : Vec))).2 =
      (List.replicate 2
        (lstmForward id id testParams [[1, 2, 3, 4]] ([0, 0, 0], [0, 0, 0])).2.1,
       List.replicate 2
        (lstmForward id id testParams [[1, 2, 3, 4]] ([0, 0, 0], [0, 0, 0])).2.2)) :=
  ⟨by decide,
    batch_replication id id testParams 2 (by decide) [[1, 2, 3, 4]]
      [0, 0, 0] [0, 0, 0]⟩

/-- C7 counterexample: the notebook's program initializes the hidden/cell
pair twice — once before the step-wise loop and once again before the
batched call — not exactly once per program run. -/
theorem hidden_init_twice_counterexample :
    hiddenInitCount notebookProgram = 2 ∧ hiddenInitCount notebookProgram ≠ 1 := by
  decide

/-- C7 (amended): the hidden/cell state pair is initialized twice per
program run (once before each of the two processing demonstrations);
within a pass each call functionally replaces the state pair with a new
value, and the value held after processing a full sequence is exactly the
state pair returned by the last call. -/
theorem hidden_state_lifecycle :
    hiddenInitCount notebookProgram = 2 ∧
    ∀ (sg th : ℚ → ℚ) (p : LSTMParams) (ys : List Vec) (x : Vec) (s : Vec × Vec),
      stepwiseRun sg th p (ys ++ [x]) s =
        ((stepwiseRun sg th p ys s).1 ++
          (lstmForward sg th p [x] (stepwiseRun sg th p ys s).2).1,
         (lstmForward sg th p [x] (stepwiseRun sg th p ys s).2).2) := by
  refine ⟨by decide, fun sg th p ys x s => ?_⟩
  rw [stepwiseRun_eq_forward, stepwiseRun_eq_forward, lstmForward_append]

/-- C8: with the seed fixed by `torch.manual_seed(2)`, the notebook run
is deterministic: any two executions whose seeded random stream at seed 2
agrees generate identical input tensors, identical initial state pairs,
and identical outputs and state pairs from every LSTM call. -/
theorem seeded_run_deterministic (g1 g2 : Nat → Nat → ℚ) (sg th : ℚ → ℚ)
    (p : LSTMParams) (hseed : g1 2 = g2 2) :
    runNotebook g1 sg th p = runNotebook g2 sg th p := by
  unfold runNotebook
  rw [hseed]

/-- C8 witness: determinism instantiated on two concrete generator
environments agreeing at seed 2. -/
theorem seeded_run_deterministic_witness :
    ((fun (s i : Nat) => (s * i : ℚ)) 2 = (fun (s i : Nat) => (s * i : ℚ)) 2) ∧
    runNotebook (fun s i => (s * i : ℚ)) id id testParams =
      runNotebook (fun s i => (s * i : ℚ)) id id testParams :=
  ⟨rfl, seeded_run_deterministic (fun s i => (s * i : ℚ))
    (fun s i => (s * i : ℚ)) id id testParams rfl⟩

/-- C9: the reshaping into the 3D layout is a value- and order-preserving
round trip: for a list of 5 input rows of width 4, the tensor built by
`torch.cat(inputs_list).view(len(inputs_list), 1, -1)` has shape
(5, 1, 4) and its slice `[t, 0, :]` equals the `t`-th element of the
list; likewise `i.view(1, 1, -1)` applied to a width-4 input preserves
its 4 values in order. -/
theorem cat_view_round_trip (xs : List Vec) (hlen : xs.length = 5)
    (hw : ∀ v ∈ xs, v.length = 4) :
    (view3 (catRows xs).flatten 5 1).length = 5 ∧
    (∀ sl ∈ view3 (catRows xs).flatten 5 1, sl.length = 1) ∧
    (∀ sl ∈ view3 (catRows xs).flatten 5 1, ∀ r ∈ sl, r.length = 4) ∧
    (∀ t : Nat, t < 5 →
      (view3 (catRows xs).flatten 5 1).get? t = (xs.get? t).map (fun r => [r])) ∧
    (∀ v : Vec, v.length = 4 → view3 v 1 1 = [[v]]) := by
  have hview : view3 (catRows xs).flatten 5 1 = xs.map (fun r => [r]) := by
    unfold catRows
    exact view3_rows xs 5 3 hlen (by norm_num) (by simpa using hw)
  refine ⟨?_, ?_, ?_, ?_, ?_⟩
  · rw [hview]; simp [hlen]
  · rw [hview]; intro sl hsl
    obtain ⟨r, -, rfl⟩ := List.mem_map.1 hsl
    rfl
  · rw [hview]; intro sl hsl r hr
    obtain ⟨r0, hr0, hEq⟩ := List.mem_map.1 hsl
    rw [← hEq] at hr
    simp only [List.mem_singleton] at hr
    rw [hr]
    exact hw r0 hr0
  · intro t _
    rw [hview, List.get?_map]
  · intro v hv
    have : view3 ([v] : List (List ℚ)).flatten 1 1 = [[v]] :=
      view3_rows [v] 1 3 rfl (by norm_num) (by simpa using hv)
    simpa using this

/-- C9 witness: the round trip instantiated on five concrete width-4
rows and one concrete width-4 vector. -/
theorem cat_view_round_trip_witness :
    (([[0, 1, 2, 3], [4, 5, 6, 7], [8, 9, 10, 11], [12, 13, 14, 15],
        [16, 17, 18, 19]] : List Vec).length = 5 ∧
      (∀ v ∈ ([[0, 1, 2, 3], [4, 5, 6, 7], [8, 9, 10, 11], [12, 13, 14, 15],
        [16, 17, 18, 19]] : List Vec), v.length = 4)) ∧
    ((view3 (catRows [[0, 1, 2, 3], [4, 5, 6, 7], [8, 9, 10, 11],
        [12, 13, 14, 15], [16, 17, 18, 19]]).flatten 5 1).length = 5 ∧
    (∀ sl ∈ view3 (catRows [[0, 1, 2, 3], [4, 5, 6, 7], [8, 9, 10, 11],
        [12, 13, 14, 15], [16, 17, 18, 19]]).flatten 5 1, sl.length = 1) ∧
    (∀ sl ∈ view3 (catRows [[0, 1, 2, 3], [4, 5, 6, 7], [8, 9, 10, 11],
        [12, 13, 14, 15], [16, 17, 18, 19]]).flatten 5 1,
      ∀ r ∈ sl, r.length = 4) ∧
    (∀ t : Nat, t < 5 →
      (view3 (catRows [[0, 1, 2, 3], [4, 5, 6, 7], [8, 9, 10, 11],
          [12, 13, 14, 15], [16, 17, 18, 19]]).flatten 5 1).get? t =
        (([[0, 1, 2, 3], [4, 5, 6, 7], [8, 9, 10, 11], [12, 13, 14, 15],
          [16, 17, 18, 19]] : List Vec).get? t).map (fun r => [r])) ∧
    (∀ v : Vec, v.length = 4 → view3 v 1 1 = [[v]])) :=
  ⟨⟨by decide, by decide⟩,
    cat_view_round_trip
      [[0, 1, 2, 3], [4, 5, 6, 7], [8, 9, 10, 11], [12, 13, 14, 15],
        [16, 17, 18, 19]] (by decide) (by decide)⟩

/-- C10: every LSTM call the notebook makes is well-shaped — the drawn
input rows have the configured input width 4, the initialized state
vectors have the configured hidden width 3, the batched input tensor
holds exactly the width-4 rows — so with well-formed parameters the
library's shape-mismatch error branch is unreachable: every checked call
of the run (the five loop calls and the one batched call) returns `ok`
with the unchecked result, and no call raises. -/
theorem notebook_calls_well_shaped (sg th : ℚ → ℚ) (p : LSTMParams)
    (hp : wfParams p 4 3) (gen : Nat → Nat → ℚ) :
    (∀ v ∈ (runNotebook gen sg th p).inputsList, v.length = 4) ∧
    (runNotebook gen sg th p).hidden0.1.length = 3 ∧
    (runNotebook gen sg th p).hidden0.2.length = 3 ∧
    (runNotebook gen sg th p).hidden1.1.length = 3 ∧
    (runNotebook gen sg th p).hidden1.2.length = 3 ∧
    stepwiseRunChecked sg th p 4 3 (runNotebook gen sg th p).inputsList
      (runNotebook gen sg th p).hidden0 =
      .ok (runNotebook gen sg th p).stepResult ∧
    lstmForwardChecked sg th p 4 3 (runNotebook gen sg th p).batchedInputs
      (runNotebook gen sg th p).hidden1 =
      .ok (runNotebook gen sg th p).batchedResult := by
  have hx : ∀ v ∈ (runNotebook gen sg th p).inputsList, v.length = 4 := by
    intro v hv
    simp only [runNotebook] at hv
    obtain ⟨t, -, rfl⟩ := List.mem_map.1 hv
    simp
  have hb : (runNotebook gen sg th p).batchedInputs =
      (runNotebook gen sg th p).inputsList :=
    runNotebook_batchedInputs gen sg th p
  have hh0a : (runNotebook gen sg th p).hidden0.1.length = 3 := by
    simp [runNotebook]
  have hh0b : (runNotebook gen sg th p).hidden0.2.length = 3 := by
    simp [runNotebook]
  have hh1a : (runNotebook gen sg th p).hidden1.1.length = 3 := by
    simp [runNotebook]
  have hh1b : (runNotebook gen sg th p).hidden1.2.length = 3 := by
    simp [runNotebook]
  refine ⟨hx, hh0a, hh0b, hh1a, hh1b, ?_, ?_⟩
  · have := stepwiseRunChecked_ok sg th p 4 3 hp
      (runNotebook gen sg th p).inputsList (runNotebook gen sg th p).hidden0
      hx hh0a hh0b
    rw [this]
    rfl
  · have hcond : lstmForwardChecked sg th p 4 3
        (runNotebook gen sg th p).batchedInputs
        (runNotebook gen sg th p).hidden1 =
        .ok (lstmForward sg th p (runNotebook gen sg th p).batchedInputs
          (runNotebook gen sg th p).hidden1) := by
      unfold lstmForwardChecked
      rw [if_pos]
      rw [hb]
      simp only [Bool.and_eq_true, List.all_eq_true, beq_iff_eq]
      exact ⟨⟨fun x hxm => hx x hxm, hh1a⟩, hh1b⟩
    rw [hcond]
    rfl

/-- C10 witness: the well-shapedness theorem instantiated on the concrete
parameter set and a concrete generator environment. -/
theorem notebook_calls_well_shaped_witness :
    wfParams testParams 4 3 ∧
    stepwiseRunChecked id id testParams 4 3
      (runNotebook (fun s i => (s * i : ℚ)) id id testParams).inputsList
      (runNotebook (fun s i => (s * i : ℚ)) id id testParams).hidden0 =
      .ok (runNotebook (fun s i => (s * i : ℚ)) id id testParams).stepResult ∧
    lstmForwardChecked id id testParams 4 3
      (runNotebook (fun s i => (s * i : ℚ)) id id testParams).batchedInputs
      (runNotebook (fun s i => (s * i : ℚ)) id id testParams).hidden1 =
      .ok (runNotebook (fun s i => (s * i : ℚ)) id id testParams).batchedResult :=
  ⟨by decide,
    (notebook_calls_well_shaped id id testParams (by decide)
      (fun s i => (s * i : ℚ))).2.2.2.2.2.1,
    (notebook_calls_well_shaped id id testParams (by decide)
      (fun s i => (s * i : ℚ))).2.2.2.2.2.2⟩

end LSTMStructure
